import Mathlib

/-!
# Verification of the MongoDB storage backend (`ceilometer/storage/impl_mongodb.py`)

Shallow embedding of the storage-and-query engine: the filter-to-query
translation (`make_timestamp_range`, `make_query_from_filter`), the write path
(`record_metering_data` over an explicit database state), the map/reduce
aggregations (`get_volume_sum`, `get_event_interval`), resource listing
(`get_resources`), the raw-event insertion step modelled over an explicit
object heap, and the connection-URL parser (`_parse_connection_url`).

Collections of the backing store are modelled as association lists; MongoDB
query/update operators (`$gte`, `$lt`, `$set`, `$addToSet`, upsert,
map/reduce with inline output) are given their documented semantics.
-/

set_option autoImplicit false

namespace ImplMongodb

/-- Python truthiness of an optional string field of the filter
(`if event_filter.user:` is false for both `None` and `""`). -/
def strTruthy : Option String → Bool
  | none => false
  | some s => !(s == "")

/-- `EventFilter`: the transient query object with six optional dimensions
(`user`, `project`, `meter`, `resource`, `source`, `start`, `end`).
Timestamps are modelled as naturals on a single linear time axis. -/
structure EventFilter where
  user : Option String := none
  project : Option String := none
  meter : Option String := none
  resource : Option String := none
  source : Option String := none
  start : Option Nat := none
  «end» : Option Nat := none
deriving Repr, DecidableEq

/-- The timestamp-range query document built by `make_timestamp_range`:
an optional `$gte` lower bound and an optional `$lt` upper bound. -/
structure TsRange where
  gte : Option Nat := none
  lt : Option Nat := none
deriving Repr, DecidableEq

/-- `make_timestamp_range(start, end)`: `$gte` from `start` when given,
`$lt` from `end` when given (datetime values are always truthy in Python,
so presence alone decides each bound). -/
def make_timestamp_range (start «end» : Option Nat) : TsRange :=
  { gte := start, lt := «end» }

/-- Python truthiness of the range dict (`if ts_range:`): empty when
neither bound was added. -/
def tsRangeEmpty (r : TsRange) : Bool :=
  r.gte.isNone && r.lt.isNone

/-- The native query document built by `make_query_from_filter`:
each key is present exactly when the corresponding clause was added. -/
structure Query where
  user_id : Option String := none
  project_id : Option String := none
  counter_name : Option String := none
  timestamp : Option TsRange := none
  resource_id : Option String := none
  source : Option String := none
deriving Repr, DecidableEq

/-- `make_query_from_filter(event_filter, require_meter)`: layers the
ownership clause (`user` taking precedence over `project`), the meter clause
(raising `RuntimeError('Missing required meter specifier')` when the meter is
empty and required), the timestamp range (omitted when empty), and the
`resource`/`source` clauses. The raise is modelled as `Except.error`. -/
def make_query_from_filter (event_filter : EventFilter) (require_meter : Bool) :
    Except String Query :=
  let q : Query := {}
  let q := if strTruthy event_filter.user then { q with user_id := event_filter.user }
    else if strTruthy event_filter.project then { q with project_id := event_filter.project }
    else q
  if !strTruthy event_filter.meter && require_meter then
    Except.error "Missing required meter specifier"
  else
    let q := if strTruthy event_filter.meter then { q with counter_name := event_filter.meter }
      else q
    let ts_range := make_timestamp_range event_filter.start event_filter.«end»
    let q := if !tsRangeEmpty ts_range then { q with timestamp := some ts_range } else q
    let q := if strTruthy event_filter.resource then { q with resource_id := event_filter.resource }
      else q
    let q := if strTruthy event_filter.source then { q with source := event_filter.source }
      else q
    Except.ok q

/-- Semantics of the `{$gte: start, $lt: end}` range document on a stored
timestamp: each present bound constrains, an absent bound does not. -/
def tsRangeMatch (r : TsRange) (ts : Nat) : Bool :=
  (match r.gte with
    | none => true
    | some s => decide (s ≤ ts)) &&
  (match r.lt with
    | none => true
    | some e => decide (ts < e))

/-- An absent equality clause matches everything; a present one requires
the stored value to equal it. -/
def optEqStr (clause : Option String) (v : String) : Bool :=
  match clause with
  | none => true
  | some x => v == x

/-- One raw-log entry (`meter` collection document), as produced by the
ingestion pipeline: the Sample record of the data model. -/
structure Sample where
  source : String
  user_id : String
  project_id : String
  resource_id : String
  counter_name : String
  counter_type : String
  counter_volume : Int
  timestamp : Nat
  resource_metadata : List (String × String)
deriving Repr, DecidableEq

/-- Store semantics of a translated query document on a raw-log sample:
the conjunction of all present clauses. -/
def sampleMatches (q : Query) (s : Sample) : Bool :=
  optEqStr q.user_id s.user_id &&
  optEqStr q.project_id s.project_id &&
  optEqStr q.counter_name s.counter_name &&
  (match q.timestamp with
    | none => true
    | some r => tsRangeMatch r s.timestamp) &&
  optEqStr q.resource_id s.resource_id &&
  optEqStr q.source s.source

/-- The timestamp constraint a query document imposes: no constraint when
the clause is absent. -/
def timestampOk (q : Query) (ts : Nat) : Bool :=
  match q.timestamp with
  | none => true
  | some r => tsRangeMatch r ts

/-- Find the value bound to a key in an association list (document lookup
by `_id`). -/
def assocFind {α β : Type} [DecidableEq α] (l : List (α × β)) (k : α) : Option β :=
  match l with
  | [] => none
  | (k', v) :: rest => if k' = k then some v else assocFind rest k

/-- MongoDB `$addToSet`: append the element unless already present. -/
def addToSet {α : Type} [DecidableEq α] (xs : List α) (x : α) : List α :=
  if x ∈ xs then xs else xs ++ [x]

/-- One element of a resource's `meter` array:
a `{counter_name, counter_type}` pair. -/
structure MeterItem where
  counter_name : String
  counter_type : String
deriving Repr, DecidableEq

/-- A `resource` collection document (without its `_id` key). -/
structure ResourceRecord where
  project_id : String
  user_id : String
  timestamp : Nat
  received_timestamp : Nat
  metadata : List (String × String)
  source : String
  meter : List MeterItem
deriving Repr, DecidableEq

/-- The database state: the `user`, `project` and `resource` collections
keyed by `_id`, and the raw `meter` log. -/
structure DBState where
  user : List (String × List String)
  project : List (String × List String)
  resource : List (String × ResourceRecord)
  meterLog : List Sample
deriving Repr, DecidableEq

/-- The empty database. -/
def emptyDB : DBState :=
  { user := [], project := [], resource := [], meterLog := [] }

/-- `collection.update({_id: key}, {$addToSet: {source: src}}, upsert=True)`
on a `user`/`project` collection: update the (unique) matching document, or
insert `{_id: key, source: [src]}` when none matches. -/
def upsertSourceIn (coll : List (String × List String)) (key src : String) :
    List (String × List String) :=
  match coll with
  | [] => [(key, [src])]
  | (k, ss) :: rest =>
    if k = key then (k, addToSet ss src) :: rest
    else (k, ss) :: upsertSourceIn rest key src

/-- The `$set`/`$addToSet` update applied to a resource document by
`record_metering_data` (creating the document when absent). -/
def resourceUpdate (old : Option ResourceRecord) (data : Sample)
    (received_timestamp : Nat) : ResourceRecord :=
  { project_id := data.project_id
    user_id := data.user_id
    timestamp := data.timestamp
    received_timestamp := received_timestamp
    metadata := data.resource_metadata
    source := data.source
    meter := addToSet (match old with
      | none => []
      | some r => r.meter)
      { counter_name := data.counter_name, counter_type := data.counter_type } }

/-- `db.resource.update({_id: data.resource_id}, {...}, upsert=True)`. -/
def upsertResourceIn (coll : List (String × ResourceRecord)) (data : Sample)
    (received_timestamp : Nat) : List (String × ResourceRecord) :=
  match coll with
  | [] => [(data.resource_id, resourceUpdate none data received_timestamp)]
  | (k, r) :: rest =>
    if k = data.resource_id then (k, resourceUpdate (some r) data received_timestamp) :: rest
    else (k, r) :: upsertResourceIn rest data received_timestamp

/-- `record_metering_data(data)`: upsert the user and project source sets,
upsert the resource document (`received_timestamp` is the engine-assigned
wall-clock time, passed explicitly here), and append the sample to the raw
log. -/
def record_metering_data (db : DBState) (data : Sample) (received_timestamp : Nat) :
    DBState :=
  { user := upsertSourceIn db.user data.user_id data.source
    project := upsertSourceIn db.project data.project_id data.source
    resource := upsertResourceIn db.resource data received_timestamp
    meterLog := db.meterLog ++ [data] }

/-- Ingest a list of `(sample, received_timestamp)` pairs in order. -/
def ingestAll (db : DBState) (items : List (Sample × Nat)) : DBState :=
  items.foldl (fun db p => record_metering_data db p.1 p.2) db

/-- The source set currently stored for a user id (empty when absent). -/
def userSources (db : DBState) (uid : String) : List String :=
  (assocFind db.user uid).getD []

/-- The source set currently stored for a project id (empty when absent). -/
def projectSources (db : DBState) (pid : String) : List String :=
  (assocFind db.project pid).getD []

/-- The metadata currently stored for a resource id, when the document
exists. -/
def resourceMeta (db : DBState) (rid : String) : Option (List (String × String)) :=
  (assocFind db.resource rid).map (fun r => r.metadata)

/-- The meter set currently stored for a resource id (empty when absent). -/
def resourceMeters (db : DBState) (rid : String) : List MeterItem :=
  ((assocFind db.resource rid).map (fun r => r.meter)).getD []

/-- `REDUCE_SUM`: the JavaScript reduce that sums the list of values emitted
for one key (`total = 0; for (...) total += values[i]`). -/
def REDUCE_SUM (values : List Int) : Int :=
  values.foldl (fun total v => total + v) 0

/-- The value map/reduce computes for one resource id: `MAP_COUNTER_VOLUME`
emits `(resource_id, counter_volume)` per matching sample and `REDUCE_SUM`
sums the volumes grouped under that key. -/
def volumeSumFor (q : Query) (log : List Sample) (rid : String) : Int :=
  REDUCE_SUM (((log.filter (sampleMatches q)).filter
    (fun s => s.resource_id == rid)).map (fun s => s.counter_volume))

/-- The inline map/reduce result of the volume-sum aggregation: one
`(resource_id, value)` pair per distinct resource id present in the
filtered set. -/
def volumeSumResults (q : Query) (log : List Sample) : List (String × Int) :=
  ((log.filter (sampleMatches q)).map (fun s => s.resource_id)).dedup.map
    (fun rid => (rid, volumeSumFor q log rid))

/-- `get_volume_sum(event_filter)`: translate the filter (meter required),
then run the volume-sum map/reduce over the raw log. -/
def get_volume_sum (event_filter : EventFilter) (log : List Sample) :
    Except String (List (String × Int)) :=
  match make_query_from_filter event_filter true with
  | Except.error e => Except.error e
  | Except.ok q => Except.ok (volumeSumResults q log)

/-- The per-resource sum an aggregation result assigns to a resource id
(0 when the id does not appear). -/
def lookupValue (results : List (String × Int)) (rid : String) : Int :=
  (assocFind results rid).getD 0

/-- One step of `REDUCE_MIN_MAX`: keep the smaller `min` and the larger
`max` component. -/
def minmaxStep (res v : Nat × Nat) : Nat × Nat :=
  (if v.1 < res.1 then v.1 else res.1, if v.2 > res.2 then v.2 else res.2)

/-- `REDUCE_MIN_MAX`: start from `values[0]` and fold `minmaxStep` over the
rest; no result when nothing was emitted. -/
def REDUCE_MIN_MAX (values : List (Nat × Nat)) : Option (Nat × Nat) :=
  match values with
  | [] => none
  | v :: vs => some (vs.foldl minmaxStep v)

/-- The inline map/reduce result of the interval aggregation:
`MAP_TIMESTAMP` emits `{min: ts, max: ts}` under one fixed key per matching
sample, `REDUCE_MIN_MAX` combines them; `(None, None)` when no sample
matched. -/
def intervalResults (q : Query) (log : List Sample) : Option Nat × Option Nat :=
  match REDUCE_MIN_MAX ((log.filter (sampleMatches q)).map
      (fun s => (s.timestamp, s.timestamp))) with
  | none => (none, none)
  | some (mn, mx) => (some mn, some mx)

/-- `get_event_interval(event_filter)`: translate the filter (meter
required), then run the min/max map/reduce over the raw log. -/
def get_event_interval (event_filter : EventFilter) (log : List Sample) :
    Except String (Option Nat × Option Nat) :=
  match make_query_from_filter event_filter true with
  | Except.error e => Except.error e
  | Except.ok q => Except.ok (intervalResults q log)

/-- An absent `is not None`-style argument matches everything; a present one
requires equality (note: `get_resources` tests `is not None`, not Python
truthiness). -/
def optArgEqStr (arg : Option String) (v : String) : Bool :=
  match arg with
  | none => true
  | some x => v == x

/-- A record yielded by `get_resources`: the stored resource document with
its `_id` key replaced by `resource_id`. -/
structure ResourceOut where
  resource_id : String
  project_id : String
  user_id : String
  timestamp : Nat
  received_timestamp : Nat
  metadata : List (String × String)
  source : String
  meter : List MeterItem
deriving Repr, DecidableEq

/-- Re-shape a stored `(_id, document)` pair into the caller-facing record. -/
def toResourceOut (kv : String × ResourceRecord) : ResourceOut :=
  { resource_id := kv.1
    project_id := kv.2.project_id
    user_id := kv.2.user_id
    timestamp := kv.2.timestamp
    received_timestamp := kv.2.received_timestamp
    metadata := kv.2.metadata
    source := kv.2.source
    meter := kv.2.meter }

/-- `get_resources(user, project, source, start_timestamp, end_timestamp)`:
build `q` with conjunctive `user_id`/`project_id`/`source` clauses; with no
time bounds, query the resource registry directly; with time bounds, first
collect the distinct resource ids of matching raw-log samples, then return
the registry documents with those ids. -/
def get_resources (db : DBState) (user project source : Option String)
    (start_timestamp end_timestamp : Option Nat) : List ResourceOut :=
  if start_timestamp.isSome || end_timestamp.isSome then
    let ts_range := make_timestamp_range start_timestamp end_timestamp
    let sampleOk : Sample → Bool := fun s =>
      optArgEqStr user s.user_id && optArgEqStr project s.project_id &&
      optArgEqStr source s.source &&
      (if !tsRangeEmpty ts_range then tsRangeMatch ts_range s.timestamp else true)
    let resource_ids := ((db.meterLog.filter sampleOk).map (fun s => s.resource_id)).dedup
    (db.resource.filter (fun kv => kv.1 ∈ resource_ids)).map toResourceOut
  else
    (db.resource.filter (fun kv =>
      optArgEqStr user kv.2.user_id && optArgEqStr project kv.2.project_id &&
      optArgEqStr source kv.2.source)).map toResourceOut

/-! ## Object-heap model of the raw-log append

The final step of `record_metering_data` is
`record = copy.copy(data); self.db.meter.insert(record)`; the pymongo driver
mutates the inserted dict in place by adding an `_id` key. To state the
aliasing/frame property we model Python dicts as heap objects addressed by
reference. -/

/-- A Python dict (field name to field value; values modelled as strings,
which suffices for the frame property). -/
def PyDict := List (String × String)
deriving instance Repr, DecidableEq for PyDict

/-- Set one key of a dict, replacing an existing binding. -/
def dictSetKey (d : PyDict) (k v : String) : PyDict :=
  match d with
  | [] => [(k, v)]
  | (k', v') :: rest => if k' = k then (k', v) :: rest else (k', v') :: dictSetKey rest k v

/-- An object heap: dict contents addressed by reference, with a fresh
reference counter. -/
structure Heap where
  objs : List (Nat × PyDict)
  next : Nat

/-- Dereference. -/
def heapGet (h : Heap) (r : Nat) : Option PyDict :=
  assocFind h.objs r

/-- Replace one binding of a reference-to-dict association list. -/
def setAssoc (objs : List (Nat × PyDict)) (r : Nat) (d : PyDict) :
    List (Nat × PyDict) :=
  match objs with
  | [] => [(r, d)]
  | (k, v) :: rest => if k = r then (k, d) :: rest else (k, v) :: setAssoc rest r d

/-- In-place update of the dict an existing reference points to. -/
def heapSet (h : Heap) (r : Nat) (d : PyDict) : Heap :=
  { objs := setAssoc h.objs r d, next := h.next }

/-- `copy.copy(data)`: allocate a fresh object with the same contents;
returns the new heap and the new reference. -/
def pyCopy (h : Heap) (r : Nat) : Heap × Nat :=
  ({ objs := h.objs ++ [(h.next, (heapGet h r).getD [])], next := h.next + 1 }, h.next)

/-- `db.meter.insert(record)`: the driver adds the store-assigned `_id` key
to the passed dict in place, and the collection gains the record. -/
def meterInsert (h : Heap) (log : List Nat) (r : Nat) (oid : String) :
    Heap × List Nat :=
  (heapSet h r (dictSetKey ((heapGet h r).getD []) "_id" oid), log ++ [r])

/-- The raw-log append step of `record_metering_data`:
`record = copy.copy(data); self.db.meter.insert(record)`. Returns the new
heap, the new raw log, and the reference of the appended copy. -/
def record_raw_event (h : Heap) (log : List Nat) (dataRef : Nat) (oid : String) :
    Heap × List Nat × Nat :=
  let c := pyCopy h dataRef
  let i := meterInsert c.1 log c.2 oid
  (i.1, i.2, c.2)

/-- Heap well-formedness: every allocated reference is below the fresh
counter. -/
def heapWF (h : Heap) : Prop :=
  ∀ p ∈ h.objs, p.1 < h.next

/-! ## Connection-URL parsing

`_parse_connection_url` uses `urlparse` on a `scheme://netloc/path` URL, the
regular expression `(?:(\w+:\w+)@)?(.*)` on the netloc, `str.split(':')` on
the remainder, and `int` on the port text. Strings are modelled as `List
Char`. -/

/-- A sample as in the spec's scenario (user u1, project p1, resource r1). -/
def exSampleA : Sample :=
  { source := "s1", user_id := "u1", project_id := "p1", resource_id := "r1"
    counter_name := "instance", counter_type := "cumulative"
    counter_volume := 1, timestamp := 10
    resource_metadata := [("display_name", "test-server")] }

/-- A second sample for the same user/resource with different metadata. -/
def exSampleB : Sample :=
  { source := "s1", user_id := "u1", project_id := "p1", resource_id := "r1"
    counter_name := "instance", counter_type := "delta"
    counter_volume := 2, timestamp := 11
    resource_metadata := [("tag", "other")] }

/-- A filter asking only for the `instance` meter. -/
def exFilterMeter : EventFilter := { meter := some "instance" }

/-- A filter with empty meter. -/
def exFilterEmpty : EventFilter := {}

/-- A filter with both user and project set. -/
def exFilterUserProject : EventFilter :=
  { user := some "u1", project := some "p1", meter := some "instance" }

/-- A filter with both time bounds set. -/
def exFilterRange : EventFilter :=
  { meter := some "instance", start := some 3, «end» := some 7 }

/-- The database after ingesting the two example samples. -/
def exDB : DBState := ingestAll emptyDB [(exSampleA, 20), (exSampleB, 21)]

/-- A concrete resource document. -/
def exResourceRec : ResourceRecord :=
  { project_id := "p1", user_id := "u1", timestamp := 11
    received_timestamp := 21, metadata := [("tag", "other")], source := "s1"
    meter := [{ counter_name := "instance", counter_type := "cumulative" }] }

/-- A database whose resource registry holds one document. -/
def exResourceDB : DBState :=
  { user := [], project := [], resource := [("r1", exResourceRec)], meterLog := [] }

/-! ## Characterization of the filter translation -/

/-- When the meter clause does not fail (meter present, or not required),
`make_query_from_filter` returns exactly the query whose clauses mirror the
truthiness of the filter fields. -/
theorem make_query_from_filter_ok (f : EventFilter) (rm : Bool)
    (h : strTruthy f.meter = true ∨ rm = false) :
    make_query_from_filter f rm = Except.ok
      { user_id := if strTruthy f.user then f.user else none
        project_id := if strTruthy f.user then none
          else if strTruthy f.project then f.project else none
        counter_name := if strTruthy f.meter then f.meter else none
        timestamp := if tsRangeEmpty (make_timestamp_range f.start f.«end») then none
          else some (make_timestamp_range f.start f.«end»)
        resource_id := if strTruthy f.resource then f.resource else none
        source := if strTruthy f.source then f.source else none } := by
  have hm : (!strTruthy f.meter && rm) = false := by
    rcases h with h | h <;> simp [h]
  by_cases hu : strTruthy f.user = true <;>
  by_cases hp : strTruthy f.project = true <;>
  by_cases hme : strTruthy f.meter = true <;>
  by_cases hts : tsRangeEmpty (make_timestamp_range f.start f.«end») = true <;>
  by_cases hr : strTruthy f.resource = true <;>
  by_cases hs : strTruthy f.source = true <;>
    simp_all [make_query_from_filter]

/-- With a required but empty meter, the translation raises. -/
theorem make_query_from_filter_raises (f : EventFilter)
    (h : strTruthy f.meter = false) :
    make_query_from_filter f true = Except.error "Missing required meter specifier" := by
  simp [make_query_from_filter, h]

/-- The timestamp clause of any successfully translated query. -/
theorem make_query_ok_timestamp (f : EventFilter) (rm : Bool) (q : Query)
    (hq : make_query_from_filter f rm = Except.ok q) :
    q.timestamp = if tsRangeEmpty (make_timestamp_range f.start f.«end») then none
      else some (make_timestamp_range f.start f.«end») := by
  rcases Bool.eq_false_or_eq_true (strTruthy f.meter) with hm | hm
  · rw [make_query_from_filter_ok f rm (Or.inl hm)] at hq
    injection hq with hq
    subst hq
    rfl
  · cases rm with
    | true =>
      rw [make_query_from_filter_raises f hm] at hq
      exact absurd hq (by simp)
    | false =>
      rw [make_query_from_filter_ok f false (Or.inr rfl)] at hq
      injection hq with hq
      subst hq
      rfl

/-- C1: for every filter, `make_query_from_filter(filter, require_meter=True)`
raises the missing-required-meter error exactly when `filter.meter` is empty;
when it raises, no query document is produced and the aggregate operations
return that error without consulting the store (their result is independent
of the raw log); with `require_meter=False` an empty meter simply adds no
`counter_name` clause. -/
theorem claim_C1 (f : EventFilter) :
    (strTruthy f.meter = false →
      make_query_from_filter f true = Except.error "Missing required meter specifier" ∧
      (∀ log₁ log₂ : List Sample, get_volume_sum f log₁ = get_volume_sum f log₂) ∧
      (∀ log₁ log₂ : List Sample, get_event_interval f log₁ = get_event_interval f log₂)) ∧
    (strTruthy f.meter = true → ∃ q, make_query_from_filter f true = Except.ok q) ∧
    (strTruthy f.meter = false →
      ∃ q, make_query_from_filter f false = Except.ok q ∧ q.counter_name = none) := by
  refine ⟨fun h => ?_, fun h => ?_, fun h => ?_⟩
  · have he := make_query_from_filter_raises f h
    exact ⟨he, fun log₁ log₂ => by simp [get_volume_sum, he],
      fun log₁ log₂ => by simp [get_event_interval, he]⟩
  · exact ⟨_, make_query_from_filter_ok f true (Or.inl h)⟩
  · refine ⟨_, make_query_from_filter_ok f false (Or.inr rfl), ?_⟩
    simp [h]

/-- C1 at a concrete input: the empty filter raises with a required meter and
translates with no `counter_name` clause otherwise. -/
theorem claim_C1_witness :
    make_query_from_filter exFilterEmpty true
      = Except.error "Missing required meter specifier" ∧
    ∃ q, make_query_from_filter exFilterEmpty false = Except.ok q ∧
      q.counter_name = none :=
  ⟨((claim_C1 exFilterEmpty).1 rfl).1, (claim_C1 exFilterEmpty).2.2 rfl⟩

/-- A truthy `user` on the filter forces the translated query to carry the
`user_id` clause and no `project_id` clause. -/
theorem make_query_user_precedence (f : EventFilter) (rm : Bool) (q : Query)
    (hu : strTruthy f.user = true)
    (hq : make_query_from_filter f rm = Except.ok q) :
    q.user_id = f.user ∧ q.project_id = none := by
  rcases Bool.eq_false_or_eq_true (strTruthy f.meter) with hm | hm
  · rw [make_query_from_filter_ok f rm (Or.inl hm)] at hq
    injection hq with hq
    subst hq
    simp [hu]
  · cases rm with
    | true =>
      rw [make_query_from_filter_raises f hm] at hq
      exact absurd hq (by simp)
    | false =>
      rw [make_query_from_filter_ok f false (Or.inr rfl)] at hq
      injection hq with hq
      subst hq
      simp [hu]

/-- C4: when both `user` and `project` are set on the filter, the translated
query carries the `user_id` clause and no `project_id` clause — user wins,
project is ignored. -/
theorem claim_C4 (f : EventFilter) (rm : Bool) (q : Query)
    (hu : strTruthy f.user = true) (hp : strTruthy f.project = true)
    (hq : make_query_from_filter f rm = Except.ok q) :
    q.user_id = f.user ∧ q.project_id = none :=
  make_query_user_precedence f rm q hu hq

/-- C4 at a concrete input: user `u1` and project `p1` both set. -/
theorem claim_C4_witness :
    (Query.mk (some "u1") none (some "instance") none none none).user_id
      = exFilterUserProject.user ∧
    (Query.mk (some "u1") none (some "instance") none none none).project_id = none :=
  claim_C4 exFilterUserProject true _ rfl rfl rfl

/-- C6: the timestamp clause of a successfully translated query is the
half-open interval `[start, end)` — `$gte` from `start`, `$lt` from `end`,
each independently optional — and is omitted entirely (constraining nothing)
when neither bound is given. -/
theorem claim_C6 (f : EventFilter) (rm : Bool) (q : Query)
    (hq : make_query_from_filter f rm = Except.ok q) :
    (f.start = none ∧ f.«end» = none → q.timestamp = none) ∧
    (f.start.isSome ∨ f.«end».isSome →
      q.timestamp = some (make_timestamp_range f.start f.«end») ∧
      (make_timestamp_range f.start f.«end»).gte = f.start ∧
      (make_timestamp_range f.start f.«end»).lt = f.«end») ∧
    (∀ ts : Nat, timestampOk q ts =
      ((f.start.all fun s => decide (s ≤ ts)) &&
       (f.«end».all fun e => decide (ts < e)))) := by
  have ht := make_query_ok_timestamp f rm q hq
  refine ⟨fun h => ?_, fun h => ?_, fun ts => ?_⟩
  · simp [ht, tsRangeEmpty, make_timestamp_range, h.1, h.2]
  · rcases hs : f.start with _ | s <;> rcases he : f.«end» with _ | e <;>
      simp_all [tsRangeEmpty, make_timestamp_range]
  · rcases hs : f.start with _ | s <;> rcases he : f.«end» with _ | e <;>
      simp_all [timestampOk, tsRangeEmpty, make_timestamp_range, tsRangeMatch]

/-- C6 at a concrete input: bounds 3 and 7, probed at timestamp 5. -/
theorem claim_C6_witness :
    timestampOk
      (Query.mk none none (some "instance") (some { gte := some 3, lt := some 7 }) none none) 5
    = (((some 3 : Option Nat).all fun s => decide (s ≤ 5)) &&
       ((some 7 : Option Nat).all fun e => decide (5 < e))) :=
  (claim_C6 exFilterRange true _ rfl).2.2 5

/-! ## The write path: registry upserts -/

/-- Membership in an `$addToSet` result. -/
theorem mem_addToSet {α : Type} [DecidableEq α] {xs : List α} {x y : α} :
    y ∈ addToSet xs x ↔ y ∈ xs ∨ y = x := by
  by_cases h : x ∈ xs
  · simp only [addToSet, if_pos h]
    exact ⟨Or.inl, fun hy => hy.elim id (fun e => e ▸ h)⟩
  · simp [addToSet, h]

/-- Lookup after a source-set upsert: the targeted key gains the source,
every other key is untouched. -/
theorem assocFind_upsertSourceIn (coll : List (String × List String))
    (key src k : String) :
    assocFind (upsertSourceIn coll key src) k =
      if k = key then some (addToSet ((assocFind coll key).getD []) src)
      else assocFind coll k := by
  induction coll with
  | nil =>
    by_cases h : k = key
    · subst h; simp [upsertSourceIn, assocFind, addToSet]
    · have h' : ¬ key = k := fun e => h e.symm
      simp [upsertSourceIn, assocFind, h, h']
  | cons kv rest ih =>
    obtain ⟨k', ss⟩ := kv
    by_cases h1 : k' = key
    · subst h1
      by_cases h2 : k' = k
      · subst h2; simp [upsertSourceIn, assocFind]
      · have h2' : ¬ k = k' := fun e => h2 e.symm
        simp [upsertSourceIn, assocFind, h2, h2']
    · by_cases h2 : k' = k
      · subst h2
        have h1' : ¬ k' = key := h1
        simp [upsertSourceIn, assocFind, h1, h1']
      · have h2' : ¬ k = k' := fun e => h2 e.symm
        simp [upsertSourceIn, assocFind, h1, h2, h2', ih]

/-- Lookup after a resource upsert: the sample's resource gets the
`$set`/`$addToSet` update, every other key is untouched. -/
theorem assocFind_upsertResourceIn (coll : List (String × ResourceRecord))
    (data : Sample) (rcv : Nat) (k : String) :
    assocFind (upsertResourceIn coll data rcv) k =
      if k = data.resource_id then
        some (resourceUpdate (assocFind coll data.resource_id) data rcv)
      else assocFind coll k := by
  induction coll with
  | nil =>
    by_cases h : k = data.resource_id
    · subst h; simp [upsertResourceIn, assocFind]
    · have h' : ¬ data.resource_id = k := fun e => h e.symm
      simp [upsertResourceIn, assocFind, h, h']
  | cons kv rest ih =>
    obtain ⟨k', r⟩ := kv
    by_cases h1 : k' = data.resource_id
    · by_cases h2 : k' = k
      · have hk : k = data.resource_id := h2 ▸ h1
        simp [upsertResourceIn, assocFind, h1, h2, hk]
      · have hk : ¬ k = data.resource_id := fun e => h2 (h1.trans e.symm)
        have hk' : ¬ data.resource_id = k := fun e => hk e.symm
        simp [upsertResourceIn, assocFind, h1, h2, hk, hk']
    · by_cases h2 : k' = k
      · have hk : ¬ k = data.resource_id := fun e => h1 (h2.trans e)
        simp [upsertResourceIn, assocFind, h1, h2, hk]
      · simp [upsertResourceIn, assocFind, h1, h2, ih]

/-- Effect of one ingestion on a user's source set. -/
theorem userSources_record (db : DBState) (data : Sample) (rcv : Nat) (uid : String) :
    userSources (record_metering_data db data rcv) uid =
      if uid = data.user_id then addToSet (userSources db uid) data.source
      else userSources db uid := by
  by_cases h : uid = data.user_id
  · subst h; simp [userSources, record_metering_data, assocFind_upsertSourceIn]
  · simp [userSources, record_metering_data, assocFind_upsertSourceIn, h]

/-- Effect of one ingestion on a project's source set. -/
theorem projectSources_record (db : DBState) (data : Sample) (rcv : Nat) (pid : String) :
    projectSources (record_metering_data db data rcv) pid =
      if pid = data.project_id then addToSet (projectSources db pid) data.source
      else projectSources db pid := by
  by_cases h : pid = data.project_id
  · subst h; simp [projectSources, record_metering_data, assocFind_upsertSourceIn]
  · simp [projectSources, record_metering_data, assocFind_upsertSourceIn, h]

/-- Effect of one ingestion on a resource's stored metadata: overwritten for
the sample's resource, untouched elsewhere. -/
theorem resourceMeta_record (db : DBState) (data : Sample) (rcv : Nat) (rid : String) :
    resourceMeta (record_metering_data db data rcv) rid =
      if rid = data.resource_id then some data.resource_metadata
      else resourceMeta db rid := by
  by_cases h : rid = data.resource_id
  · subst h
    simp [resourceMeta, record_metering_data, assocFind_upsertResourceIn, resourceUpdate]
  · simp [resourceMeta, record_metering_data, assocFind_upsertResourceIn, h]

/-- Effect of one ingestion on a resource's meter set: `$addToSet` of the
sample's counter pair for the sample's resource, untouched elsewhere. -/
theorem resourceMeters_record (db : DBState) (data : Sample) (rcv : Nat) (rid : String) :
    resourceMeters (record_metering_data db data rcv) rid =
      if rid = data.resource_id then
        addToSet (resourceMeters db rid)
          { counter_name := data.counter_name, counter_type := data.counter_type }
      else resourceMeters db rid := by
  by_cases h : rid = data.resource_id
  · subst h
    simp only [resourceMeters, record_metering_data, assocFind_upsertResourceIn, if_pos rfl]
    cases hf : assocFind db.resource data.resource_id <;> simp [resourceUpdate, hf]
  · simp [resourceMeters, record_metering_data, assocFind_upsertResourceIn, h]

/-- C2: each ingestion only ever adds to the source sets of the user and
project registries, and ingesting the same `(user_id, source)` pair (resp.
`(project_id, source)` pair) twice into an empty store yields a source set
of size 1 containing exactly that source. -/
theorem claim_C2 :
    (∀ (db : DBState) (data : Sample) (rcv : Nat) (uid pid src : String),
      (src ∈ userSources db uid →
        src ∈ userSources (record_metering_data db data rcv) uid) ∧
      (src ∈ projectSources db pid →
        src ∈ projectSources (record_metering_data db data rcv) pid)) ∧
    (∀ (d₁ d₂ : Sample) (r₁ r₂ : Nat),
      d₁.user_id = d₂.user_id → d₁.source = d₂.source →
      userSources (ingestAll emptyDB [(d₁, r₁), (d₂, r₂)]) d₁.user_id = [d₁.source]) ∧
    (∀ (d₁ d₂ : Sample) (r₁ r₂ : Nat),
      d₁.project_id = d₂.project_id → d₁.source = d₂.source →
      projectSources (ingestAll emptyDB [(d₁, r₁), (d₂, r₂)]) d₁.project_id = [d₁.source]) := by
  refine ⟨fun db data rcv uid pid src => ⟨fun hm => ?_, fun hm => ?_⟩,
    fun d₁ d₂ r₁ r₂ hu hs => ?_, fun d₁ d₂ r₁ r₂ hp hs => ?_⟩
  · rw [userSources_record]
    split
    · exact mem_addToSet.mpr (Or.inl hm)
    · exact hm
  · rw [projectSources_record]
    split
    · exact mem_addToSet.mpr (Or.inl hm)
    · exact hm
  · show userSources
      (record_metering_data (record_metering_data emptyDB d₁ r₁) d₂ r₂) d₁.user_id = _
    rw [userSources_record, if_pos hu, userSources_record, if_pos rfl]
    have h0 : userSources emptyDB d₁.user_id = [] := rfl
    rw [h0, ← hs]
    simp [addToSet]
  · show projectSources
      (record_metering_data (record_metering_data emptyDB d₁ r₁) d₂ r₂) d₁.project_id = _
    rw [projectSources_record, if_pos hp, projectSources_record, if_pos rfl]
    have h0 : projectSources emptyDB d₁.project_id = [] := rfl
    rw [h0, ← hs]
    simp [addToSet]

/-- C2 at a concrete input: two samples sharing user `u1`, project `p1` and
source `s1`. -/
theorem claim_C2_witness :
    userSources (ingestAll emptyDB [(exSampleA, 20), (exSampleB, 21)])
      exSampleA.user_id = [exSampleA.source] ∧
    projectSources (ingestAll emptyDB [(exSampleA, 20), (exSampleB, 21)])
      exSampleA.project_id = [exSampleA.source] :=
  ⟨claim_C2.2.1 exSampleA exSampleB 20 21 rfl rfl,
   claim_C2.2.2 exSampleA exSampleB 20 21 rfl rfl⟩

/-- Metadata after ingesting a non-empty batch of samples for one resource:
the last sample's metadata, wholesale. -/
theorem resourceMeta_ingestAll (items : List (Sample × Nat)) (r : String) :
    ∀ (db : DBState) (hne : items ≠ []),
      (∀ p ∈ items, (p : Sample × Nat).1.resource_id = r) →
      resourceMeta (ingestAll db items) r =
        some ((items.getLast hne).1.resource_metadata) := by
  induction items with
  | nil => intro db hne _; exact absurd rfl hne
  | cons p rest ih =>
    intro db hne hall
    have hstep : ingestAll db (p :: rest) =
        ingestAll (record_metering_data db p.1 p.2) rest := rfl
    cases rest with
    | nil =>
      have hp : p.1.resource_id = r := hall p (by simp)
      simp [ingestAll, resourceMeta_record, hp.symm]
    | cons p2 rest2 =>
      have hne2 : p2 :: rest2 ≠ [] := by simp
      rw [hstep, ih (record_metering_data db p.1 p.2) hne2
        (fun q hq => hall q (List.mem_cons_of_mem p hq)),
        List.getLast_cons hne2]

/-- Meter set after ingesting a batch of samples for one resource: the
monotonic union of the initial set and every counter pair seen. -/
theorem resourceMeters_ingestAll (items : List (Sample × Nat)) (r : String) :
    ∀ (db : DBState), (∀ p ∈ items, (p : Sample × Nat).1.resource_id = r) →
      ∀ m : MeterItem, m ∈ resourceMeters (ingestAll db items) r ↔
        (m ∈ resourceMeters db r ∨ ∃ p ∈ items,
          m = { counter_name := (p : Sample × Nat).1.counter_name
                counter_type := p.1.counter_type }) := by
  induction items with
  | nil => intro db _ m; simp [ingestAll]
  | cons p rest ih =>
    intro db hall m
    have hstep : ingestAll db (p :: rest) =
        ingestAll (record_metering_data db p.1 p.2) rest := rfl
    have hp : p.1.resource_id = r := hall p (by simp)
    rw [hstep, ih (record_metering_data db p.1 p.2)
      (fun q hq => hall q (List.mem_cons_of_mem p hq)) m,
      resourceMeters_record, if_pos hp.symm]
    rw [mem_addToSet]
    constructor
    · rintro ((hm | hm) | ⟨q, hq, hmq⟩)
      · exact Or.inl hm
      · exact Or.inr ⟨p, by simp, hm⟩
      · exact Or.inr ⟨q, List.mem_cons_of_mem p hq, hmq⟩
    · rintro (hm | ⟨q, hq, hmq⟩)
      · exact Or.inl (Or.inl hm)
      · rcases List.mem_cons.mp hq with rfl | hq'
        · exact Or.inl (Or.inr hmq)
        · exact Or.inr ⟨q, hq', hmq⟩

/-- C3: after ingesting a non-empty sequence of samples for one resource,
the resource registry's `metadata` equals the most recently ingested
sample's metadata (last-write-wins, no merge) and its meter set is the
monotonic union of every `(counter_name, counter_type)` pair seen. -/
theorem claim_C3 (db : DBState) (items : List (Sample × Nat)) (r : String)
    (hne : items ≠ [])
    (hall : ∀ p ∈ items, (p : Sample × Nat).1.resource_id = r) :
    resourceMeta (ingestAll db items) r =
      some ((items.getLast hne).1.resource_metadata) ∧
    (∀ m : MeterItem, m ∈ resourceMeters (ingestAll db items) r ↔
      (m ∈ resourceMeters db r ∨ ∃ p ∈ items,
        m = { counter_name := (p : Sample × Nat).1.counter_name
              counter_type := p.1.counter_type })) :=
  ⟨resourceMeta_ingestAll items r db hne hall,
   resourceMeters_ingestAll items r db hall⟩

/-- C3 at a concrete input: two samples for resource `r1` with different
metadata and different counter types. -/
theorem claim_C3_witness :
    resourceMeta exDB "r1" = some [("tag", "other")] ∧
    ({ counter_name := "instance", counter_type := "cumulative" } : MeterItem)
      ∈ resourceMeters exDB "r1" := by
  have h := claim_C3 emptyDB [(exSampleA, 20), (exSampleB, 21)] "r1"
    (by simp) (by decide)
  exact ⟨h.1, (h.2 _).mpr (Or.inr ⟨(exSampleA, 20), by simp, rfl⟩)⟩

/-! ## The aggregation engine -/

/-- Folding `+` from any start value shifts the sum. -/
theorem foldl_add_init (l : List Int) :
    ∀ b : Int, l.foldl (fun total v => total + v) b =
      b + l.foldl (fun total v => total + v) 0 := by
  induction l with
  | nil => intro b; simp
  | cons x xs ih =>
    intro b
    simp only [List.foldl_cons]
    rw [ih (b + x), ih (0 + x)]
    ring

/-- `REDUCE_SUM` is additive over concatenation: the reduce step of the
volume-sum aggregation merges partitions by addition. -/
theorem REDUCE_SUM_append (a b : List Int) :
    REDUCE_SUM (a ++ b) = REDUCE_SUM a + REDUCE_SUM b := by
  simp only [REDUCE_SUM, List.foldl_append]
  exact foldl_add_init b _

/-- The per-resource volume sum is additive over any split of the raw log. -/
theorem volumeSumFor_append (q : Query) (l₁ l₂ : List Sample) (rid : String) :
    volumeSumFor q (l₁ ++ l₂) rid = volumeSumFor q l₁ rid + volumeSumFor q l₂ rid := by
  simp only [volumeSumFor, List.filter_append, List.map_append, REDUCE_SUM_append]

/-- Lookup in a list tabulating a function over keys. -/
theorem assocFind_map_self (l : List String) (g : String → Int) (x : String) :
    assocFind (l.map (fun r => (r, g r))) x = if x ∈ l then some (g x) else none := by
  induction l with
  | nil => simp [assocFind]
  | cons a t ih =>
    by_cases h : a = x
    · subst h; simp [assocFind]
    · have h' : ¬ x = a := fun e => h e.symm
      simp [assocFind, h, h', ih]

/-- A resource id absent from the filtered set has volume sum 0. -/
theorem volumeSumFor_zero (q : Query) (log : List Sample) (rid : String)
    (h : rid ∉ (log.filter (sampleMatches q)).map (fun s => s.resource_id)) :
    volumeSumFor q log rid = 0 := by
  have hnil : (log.filter (sampleMatches q)).filter (fun s => s.resource_id == rid) = [] := by
    rw [List.filter_eq_nil_iff]
    intro s hs
    simp only [beq_iff_eq]
    intro he
    exact h (List.mem_map.mpr ⟨s, hs, he⟩)
  simp [volumeSumFor, hnil, REDUCE_SUM]

/-- The value the volume-sum result assigns to a resource id is exactly
`volumeSumFor`. -/
theorem lookupValue_volumeSumResults (q : Query) (log : List Sample) (rid : String) :
    lookupValue (volumeSumResults q log) rid = volumeSumFor q log rid := by
  rw [lookupValue, volumeSumResults, assocFind_map_self]
  by_cases h : rid ∈ ((log.filter (sampleMatches q)).map (fun s => s.resource_id)).dedup
  · simp [h]
  · simp only [h, if_neg h, Option.getD_none]
    exact (volumeSumFor_zero q log rid (fun hm => h (List.mem_dedup.mpr hm))).symm

/-- C5: `get_volume_sum`'s per-resource sums over a whole raw log equal the
per-resource sums over any two-way partition added pointwise: the sum
reduce merges arbitrary partitions correctly. -/
theorem claim_C5 (f : EventFilter) (l₁ l₂ : List Sample) (rid : String)
    (res₁₂ res₁ res₂ : List (String × Int))
    (h₁₂ : get_volume_sum f (l₁ ++ l₂) = Except.ok res₁₂)
    (h₁ : get_volume_sum f l₁ = Except.ok res₁)
    (h₂ : get_volume_sum f l₂ = Except.ok res₂) :
    lookupValue res₁₂ rid = lookupValue res₁ rid + lookupValue res₂ rid := by
  cases hq : make_query_from_filter f true with
  | error e => simp [get_volume_sum, hq] at h₁₂
  | ok q =>
    simp only [get_volume_sum, hq, Except.ok.injEq] at h₁₂ h₁ h₂
    subst h₁₂; subst h₁; subst h₂
    rw [lookupValue_volumeSumResults, lookupValue_volumeSumResults,
      lookupValue_volumeSumResults, volumeSumFor_append]

/-- C5 at a concrete input: the two example samples split one per part. -/
theorem claim_C5_witness :
    lookupValue [("r1", (3 : Int))] "r1" =
      lookupValue [("r1", (1 : Int))] "r1" + lookupValue [("r1", (2 : Int))] "r1" :=
  claim_C5 exFilterMeter [exSampleA] [exSampleB] "r1" _ _ _ rfl rfl rfl

/-- The fold of `minmaxStep` over self-paired values computes a lower/upper
bound attained in the list (or the seed). -/
theorem foldl_minmax (l : List Nat) :
    ∀ (a b mn mx : Nat),
      (l.map fun x => (x, x)).foldl minmaxStep (a, b) = (mn, mx) →
      (mn = a ∨ mn ∈ l) ∧ mn ≤ a ∧ (∀ x ∈ l, mn ≤ x) ∧
      (mx = b ∨ mx ∈ l) ∧ b ≤ mx ∧ (∀ x ∈ l, x ≤ mx) := by
  induction l with
  | nil =>
    intro a b mn mx h
    simp only [List.map_nil, List.foldl_nil, Prod.mk.injEq] at h
    obtain ⟨rfl, rfl⟩ := h
    simp
  | cons y t ih =>
    intro a b mn mx h
    simp only [List.map_cons, List.foldl_cons] at h
    have h' := ih (if y < a then y else a) (if y > b then y else b) mn mx
      (by simpa [minmaxStep] using h)
    obtain ⟨hmn, hmna, hmnl, hmx, hmxb, hmxl⟩ := h'
    refine ⟨?_, ?_, ?_, ?_, ?_, ?_⟩
    · rcases hmn with he | hm
      · by_cases hy : y < a
        · rw [he]; right; simp [hy]
        · rw [he]; left; simp [hy]
      · right; exact List.mem_cons_of_mem y hm
    · refine le_trans hmna ?_
      by_cases hy : y < a
      · simp only [if_pos hy]; exact le_of_lt hy
      · simp [hy]
    · intro x hx
      rcases List.mem_cons.mp hx with rfl | hx'
      · refine le_trans hmna ?_
        by_cases hy : x < a
        · simp [hy]
        · simp only [if_neg hy]; exact le_of_not_lt hy
      · exact hmnl x hx'
    · rcases hmx with he | hm
      · by_cases hy : y > b
        · rw [he]; right; simp [hy]
        · rw [he]; left; simp [hy]
      · right; exact List.mem_cons_of_mem y hm
    · refine le_trans ?_ hmxb
      by_cases hy : y > b
      · simp only [if_pos hy]; exact le_of_lt hy
      · simp [hy]
    · intro x hx
      rcases List.mem_cons.mp hx with rfl | hx'
      · refine le_trans ?_ hmxb
        by_cases hy : x > b
        · simp [hy]
        · simp only [if_neg hy]; exact le_of_not_lt hy
      · exact hmxl x hx'

/-- C7: `get_event_interval` returns `(None, None)` exactly on an empty
matching set; on a non-empty one it returns a single `(min, max)` pair of
timestamps attained by matching samples and bounding all of them. -/
theorem claim_C7 (f : EventFilter) (q : Query) (log : List Sample)
    (hq : make_query_from_filter f true = Except.ok q) :
    (log.filter (sampleMatches q) = [] →
      get_event_interval f log = Except.ok (none, none)) ∧
    (log.filter (sampleMatches q) ≠ [] →
      ∃ mn mx, get_event_interval f log = Except.ok (some mn, some mx) ∧
        mn ∈ (log.filter (sampleMatches q)).map (fun s => s.timestamp) ∧
        mx ∈ (log.filter (sampleMatches q)).map (fun s => s.timestamp) ∧
        ∀ t ∈ (log.filter (sampleMatches q)).map (fun s => s.timestamp),
          mn ≤ t ∧ t ≤ mx) := by
  constructor
  · intro h
    simp [get_event_interval, hq, intervalResults, h, REDUCE_MIN_MAX]
  · intro h
    obtain ⟨s, rest, hsr⟩ := List.exists_cons_of_ne_nil h
    have hmap : (log.filter (sampleMatches q)).map (fun s => (s.timestamp, s.timestamp))
        = (s.timestamp, s.timestamp) ::
          ((rest.map (fun s => s.timestamp)).map (fun x => (x, x))) := by
      rw [hsr]
      simp [List.map_map, Function.comp]
    obtain ⟨mn, mx, hfold⟩ :
        ∃ mn mx, ((rest.map fun s => s.timestamp).map fun x => (x, x)).foldl
          minmaxStep (s.timestamp, s.timestamp) = (mn, mx) := ⟨_, _, rfl⟩
    have hb := foldl_minmax (rest.map fun s => s.timestamp)
      s.timestamp s.timestamp mn mx hfold
    have hfold' := hfold
    rw [List.map_map] at hfold'
    refine ⟨mn, mx, ?_, ?_, ?_, ?_⟩
    · simp [get_event_interval, hq, intervalResults, hmap, REDUCE_MIN_MAX, hfold, hfold']
    · rw [hsr]
      simp only [List.map_cons, List.mem_cons]
      rcases hb.1 with rfl | hm
      · exact Or.inl rfl
      · exact Or.inr hm
    · rw [hsr]
      simp only [List.map_cons, List.mem_cons]
      rcases hb.2.2.2.1 with rfl | hm
      · exact Or.inl rfl
      · exact Or.inr hm
    · intro t ht
      rw [hsr] at ht
      simp only [List.map_cons, List.mem_cons] at ht
      rcases ht with rfl | ht'
      · exact ⟨hb.2.1, hb.2.2.2.2.1⟩
      · exact ⟨hb.2.2.1 t ht', hb.2.2.2.2.2 t ht'⟩

/-- C7 at a concrete input: a filter matching no sample yields
`(None, None)`. -/
theorem claim_C7_witness :
    get_event_interval { meter := some "other" } [exSampleA, exSampleB]
      = Except.ok (none, none) :=
  (claim_C7 { meter := some "other" }
    (Query.mk none none (some "other") none none none)
    [exSampleA, exSampleB] rfl).1 rfl

/-! ## The raw-log append: frame property -/

/-- A successful lookup exposes a member of the association list. -/
theorem mem_of_assocFind {α β : Type} [DecidableEq α]
    (l : List (α × β)) (k : α) (v : β) (h : assocFind l k = some v) :
    (k, v) ∈ l := by
  induction l with
  | nil => simp [assocFind] at h
  | cons kv rest ih =>
    obtain ⟨k', v'⟩ := kv
    by_cases hk : k' = k
    · subst hk
      simp [assocFind] at h
      subst h
      exact List.mem_cons_self _ _
    · simp only [assocFind, if_neg hk] at h
      exact List.mem_cons_of_mem _ (ih h)

/-- A lookup that succeeds on a prefix succeeds on the whole list. -/
theorem assocFind_append_of_some {α β : Type} [DecidableEq α]
    (l l₂ : List (α × β)) (k : α) (v : β) (h : assocFind l k = some v) :
    assocFind (l ++ l₂) k = some v := by
  induction l with
  | nil => simp [assocFind] at h
  | cons kv rest ih =>
    obtain ⟨k', v'⟩ := kv
    by_cases hk : k' = k
    · simp only [assocFind, if_pos hk] at h ⊢
      exact h
    · simp only [List.cons_append, assocFind, if_neg hk] at h ⊢
      exact ih h

/-- Setting one reference leaves lookups at any other reference unchanged. -/
theorem assocFind_setAssoc_ne (l : List (Nat × PyDict)) (r k : Nat) (d : PyDict)
    (h : ¬ k = r) : assocFind (setAssoc l r d) k = assocFind l k := by
  induction l with
  | nil =>
    have h' : ¬ r = k := fun e => h e.symm
    simp [setAssoc, assocFind, h']
  | cons kv rest ih =>
    obtain ⟨k', v'⟩ := kv
    by_cases hk : k' = r
    · subst hk
      have h' : ¬ k' = k := fun e => h (e.symm.trans rfl)
      simp [setAssoc, assocFind, h']
    · by_cases hk2 : k' = k
      · subst hk2
        simp [setAssoc, assocFind, hk]
      · simp [setAssoc, assocFind, hk, hk2, ih]

/-- C8: the raw-log append copies the caller's record before inserting it;
the store-internal `_id` is attached to the copy only. After the call the
caller's record is unchanged (in particular it gains no `_id` key), the
appended reference is distinct from the caller's, and the log grew by
exactly that copy. -/
theorem claim_C8 (h : Heap) (log : List Nat) (dataRef : Nat) (oid : String)
    (d : PyDict) (hwf : heapWF h) (hd : heapGet h dataRef = some d) :
    heapGet (record_raw_event h log dataRef oid).1 dataRef = some d ∧
    (record_raw_event h log dataRef oid).2.2 ≠ dataRef ∧
    (record_raw_event h log dataRef oid).2.1
      = log ++ [(record_raw_event h log dataRef oid).2.2] ∧
    (assocFind d "_id" = none →
      ∃ d', heapGet (record_raw_event h log dataRef oid).1 dataRef = some d' ∧
        assocFind d' "_id" = none) := by
  have hmem := mem_of_assocFind h.objs dataRef d hd
  have hlt : dataRef < h.next := hwf _ hmem
  have hne : ¬ dataRef = h.next := Nat.ne_of_lt hlt
  have hne' : h.next ≠ dataRef := fun e => hne e.symm
  have hget : heapGet (record_raw_event h log dataRef oid).1 dataRef = some d := by
    simp only [record_raw_event, pyCopy, meterInsert, heapSet, heapGet, hd,
      Option.getD_some]
    rw [assocFind_setAssoc_ne _ _ _ _ hne]
    exact assocFind_append_of_some _ _ _ _ hd
  refine ⟨hget, hne', rfl, fun hid => ⟨d, hget, hid⟩⟩

/-- C8 at a concrete input: one live dict with no `_id` key. -/
theorem claim_C8_witness :
    heapGet (record_raw_event ⟨[(0, [("source", "s1")])], 1⟩ [] 0 "oid").1 0
      = some [("source", "s1")] ∧
    (record_raw_event ⟨[(0, [("source", "s1")])], 1⟩ [] 0 "oid").2.2 ≠ 0 := by
  have h := claim_C8 ⟨[(0, [("source", "s1")])], 1⟩ [] 0 "oid" [("source", "s1")]
    (by intro p hp; simp at hp; simp [hp]) rfl
  exact ⟨h.1, h.2.1⟩

/-! ## Resource listing -/

/-- C10: `get_resources` with both `user` and `project` given (and no time
bounds) returns exactly the registry documents whose `user_id` AND
`project_id` both match — conjunctive, no precedence — unlike
`make_query_from_filter`, where a truthy `user` suppresses the `project_id`
clause entirely. -/
theorem claim_C10 (db : DBState) (u p : String) :
    (∀ out : ResourceOut,
      out ∈ get_resources db (some u) (some p) none none none ↔
        ∃ rec : ResourceRecord, (out.resource_id, rec) ∈ db.resource ∧
          out = toResourceOut (out.resource_id, rec) ∧
          rec.user_id = u ∧ rec.project_id = p) ∧
    (∀ (f : EventFilter) (rm : Bool) (q : Query), strTruthy f.user = true →
      make_query_from_filter f rm = Except.ok q → q.project_id = none) := by
  constructor
  · intro out
    constructor
    · intro hmem
      simp only [get_resources, Option.isSome_none, Bool.or_self, Bool.false_eq_true,
        if_neg, ite_false] at hmem
      obtain ⟨kv, hkv, hout⟩ := List.mem_map.mp hmem
      obtain ⟨k, rec⟩ := kv
      have hf := List.mem_filter.mp hkv
      have hpred := hf.2
      simp only [optArgEqStr, Bool.and_eq_true, beq_iff_eq] at hpred
      have hrid : out.resource_id = k := by rw [← hout]; rfl
      subst hrid
      exact ⟨rec, hf.1, hout.symm, hpred.1.1, hpred.1.2⟩
    · rintro ⟨rec, hmem, hout, hu, hp⟩
      simp only [get_resources, Option.isSome_none, Bool.or_self, Bool.false_eq_true,
        if_neg, ite_false]
      exact List.mem_map.mpr ⟨(out.resource_id, rec),
        List.mem_filter.mpr ⟨hmem, by simp [optArgEqStr, hu, hp]⟩, hout.symm⟩
  · intro f rm q hu hq
    exact (make_query_user_precedence f rm q hu hq).2

/-- C10 at a concrete input: a registry document owned by `u1`/`p1` is
returned when both are filtered on. -/
theorem claim_C10_witness :
    toResourceOut ("r1", exResourceRec)
      ∈ get_resources exResourceDB (some "u1") (some "p1") none none none :=
  ((claim_C10 exResourceDB "u1" "p1").1 _).mpr
    ⟨exResourceRec, List.mem_singleton.mpr rfl, rfl, rfl, rfl⟩

/-! ## Connection-URL parsing -/

end ImplMongodb
